import Mathlib

/-!
Shallow embedding of two utility scripts of the repository
`google/automotive-design-compose`:

* `src/.gemini/parse_coverage.py` — reads a JaCoCo XML coverage report and
  prints, for every class of a package whose name starts with
  `com/android/designcompose`, a line when its LINE coverage percentage is
  strictly below 50.
* `src/reference-apps/standalone-projects/export-standalone-project.py` —
  copies a project tree twice with `shutil.copytree`, ignoring entries that
  match the `shutil.ignore_patterns('.*', 'build', 'local.properties', 'bin')`
  predicate.

Modelling conventions: Python's unbounded `int` is `ℤ`; Python's float
division `covered_lines / total_lines` is modelled by exact rational
division (the IEEE-754 rounding of the quotient is not modelled; it agrees
with the rational value on all comparisons used here except at totals far
beyond 2^53, and the `.2f` rendering agrees except at exact half-hundredth
ties, which a binary double can only produce on dyadic values). XML
attributes are modelled as `Option` fields: `none` is an absent attribute;
for the integer counter attributes `none` also stands for a value `int()`
cannot parse, both of which make `int(...)` raise.
-/

/-- Counter element of the JaCoCo report: `<counter type=".." missed=".." covered=".."/>`.
`missed`/`covered` hold the integer value of the attribute when it is present
and parseable, `none` otherwise (in which case `int(...)` raises in Python). -/
structure Counter where
  ctype : String
  missed : Option ℤ
  covered : Option ℤ
deriving DecidableEq, Repr

/-- Class element: `<class name=".." sourcefilename="..">` with its counter children. -/
structure ClassElem where
  name : Option String
  sourcefilename : Option String
  counters : List Counter
deriving DecidableEq, Repr

/-- Package element: `<package name="..">` with its class children. -/
structure PackageElem where
  name : Option String
  classes : List ClassElem
deriving DecidableEq, Repr

/-- Root `<report>` element: an ordered sequence of packages. -/
structure Report where
  packages : List PackageElem
deriving DecidableEq, Repr

/-- The uncaught Python exceptions the script can raise. -/
inductive RunError where
  /-- `ET.parse` on a missing file. -/
  | fileNotFoundError
  /-- `ET.parse` on a present but malformed document. -/
  | parseError
  /-- `None.startswith(...)` when a package has no `name` attribute. -/
  | attributeError
  /-- `int(None)` (or `int` of an unparseable string) for a counter attribute. -/
  | typeError
deriving DecidableEq, Repr

/-- The hard-coded package prefix of `parse_coverage.py`, line 9. -/
def pfx : String := "com/android/designcompose"

/-- Python's `s.startswith(pre)`. -/
def startswith (s pre : String) : Bool :=
  pre.toList.isPrefixOf s.toList

/-- Python's rendering of an optional attribute inside an f-string:
a missing attribute is the value `None`, printed as `"None"`. -/
def pyStrOpt : Option String → String
  | some s => s
  | none => "None"

/-- `class_elem.find('counter[@type="LINE"]')`: the first `counter` child
whose `type` attribute is `LINE`, if any (line 16 of the script). -/
def findLineCounter (class_elem : ClassElem) : Option Counter :=
  class_elem.counters.find? (fun k => k.ctype == "LINE")

/-- The coverage expression of line 22, `(covered_lines / total_lines) * 100`,
with Python's float division modelled as exact rational division. -/
def coverage_of (covered_lines total_lines : ℤ) : ℚ :=
  ((covered_lines : ℚ) / (total_lines : ℚ)) * 100

/-- Round a rational to the nearest integer, ties to the even integer.
This is the rounding CPython's float `repr`/`format` machinery applies when
the value (here always a dyadic rational or a correctly-rounded quotient)
sits exactly on a tie. -/
def roundHalfEven (q : ℚ) : ℤ :=
  let fl := ⌊q⌋
  let fr := q - (fl : ℚ)
  if fr < 1 / 2 then fl
  else if 1 / 2 < fr then fl + 1
  else if fl % 2 = 0 then fl else fl + 1

/-- Rendering of the last two decimal digits: the hundredths value `k < 100`
padded to width 2. -/
def twoDigitFrac (k : ℕ) : String :=
  (if k < 10 then "0" else "") ++ Nat.repr k

/-- Python's `f'{coverage:.2f}'`: the value rounded to a whole number of
hundredths, printed with a sign, the integer part, a dot and exactly two
fractional digits. -/
def format2 (q : ℚ) : String :=
  let n : ℤ := roundHalfEven (q * 100)
  (if n < 0 then "-" else "") ++ Nat.repr (n.natAbs / 100) ++ "." ++ twoDigitFrac (n.natAbs % 100)

/-- The line `print(f'{package_name}/{source_filename}: {coverage:.2f}%')` emits. -/
def emitLine (package_name source_filename : String) (coverage : ℚ) : String :=
  package_name ++ "/" ++ source_filename ++ ": " ++ format2 coverage ++ "%"

/-- Lines 13–24 of `parse_coverage.py`: the body of the inner loop for one
`class_elem` of a retained package. Returns the lines it prints, or the
exception it raises (`int(None)` when a counter attribute is missing). -/
def reportClass (package_name : String) (class_elem : ClassElem) : Except RunError (List String) :=
  let source_filename := class_elem.sourcefilename
  match findLineCounter class_elem with
  | none => .ok []
  | some line_counter =>
    match line_counter.missed, line_counter.covered with
    | some missed_lines, some covered_lines =>
      let total_lines := missed_lines + covered_lines
      if 0 < total_lines then
        let coverage := coverage_of covered_lines total_lines
        if coverage < 50 then
          .ok [emitLine package_name (pyStrOpt source_filename) coverage]
        else .ok []
      else .ok []
    | _, _ => .error .typeError

/-- Run a per-element action over a list in order, concatenating the printed
lines, aborting at the first exception — the semantics of a Python `for`
loop whose body prints or raises. -/
def runAll {α : Type} (f : α → Except RunError (List String)) : List α → Except RunError (List String)
  | [] => .ok []
  | x :: xs =>
    match f x with
    | .error e => .error e
    | .ok l =>
      match runAll f xs with
      | .error e => .error e
      | .ok ls => .ok (l ++ ls)

/-- Lines 7–24 of `parse_coverage.py`: the body of the outer loop for one
`package`. `package.get('name')` yields `None` when the attribute is absent,
and `None.startswith(...)` then raises `AttributeError`. -/
def reportPackage (package : PackageElem) : Except RunError (List String) :=
  match package.name with
  | none => .error .attributeError
  | some package_name =>
    if !startswith package_name pfx then .ok []
    else runAll (reportClass package_name) package.classes

/-- Models the `xml_file` argument together with `ET.parse` (lines 4–5):
`none` is a missing file (`FileNotFoundError`), `some none` a present but
malformed document (`xml.etree.ElementTree.ParseError`), `some (some root)`
a present well-formed document parsing to `root`. -/
def et_parse : Option (Option Report) → Except RunError Report
  | none => .error .fileNotFoundError
  | some none => .error .parseError
  | some (some root) => .ok root

/-- `parse_jacoco_report(xml_file)`: parse, then scan every package in
document order. The returned list is the sequence of printed lines. -/
def parse_jacoco_report (xml_file : Option (Option Report)) : Except RunError (List String) :=
  match et_parse xml_file with
  | .error e => .error e
  | .ok root => runAll reportPackage root.packages

/-- Entry of a directory tree: a file or a directory with its entries, as
`shutil.copytree` walks it. `symlinks=False` dereferences links, so a link
appears here as the file or directory it points at. -/
inductive FsEntry where
  | file (name : String)
  | dir (name : String) (entries : List FsEntry)

/-- Name of a tree entry. -/
def FsEntry.name : FsEntry → String
  | .file n => n
  | .dir n _ => n

/-- Python's `fnmatch.fnmatch` on POSIX for patterns built from literal
characters, `*` and `?` (the four patterns of the script use no `[seq]`
classes, which are therefore not modelled): the whole name must match,
`*` matches any sequence of characters, `?` any single character. -/
def fnmatchList : List Char → List Char → Bool
  | [], n => n.isEmpty
  | p :: ps, n =>
    if p = '*' then n.tails.any (fun t => fnmatchList ps t)
    else
      match n with
      | [] => false
      | c :: cs => (p == '?' || p == c) && fnmatchList ps cs

/-- `fnmatch.fnmatch(name, pat)` on strings. -/
def fnmatch (pat name : String) : Bool :=
  fnmatchList pat.toList name.toList

/-- The patterns of `shutil.ignore_patterns('.*', 'build', 'local.properties', 'bin')`
(lines 42–44 of `export-standalone-project.py`). -/
def ignoreGlobs : List String := [".*", "build", "local.properties", "bin"]

/-- The exclusion predicate the `ignore_patterns` callback induces on one
directory entry name: some pattern fnmatches it. -/
def shouldIgnore (name : String) : Bool :=
  ignoreGlobs.any (fun pat => fnmatch pat name)

/-- `shutil.copytree(src, dst, ignore=ign)` restricted to its effect on the
tree: at each directory level the entries whose name the ignore callback
reports are dropped, the rest are copied, recursing into directories. -/
def copytree (ign : String → Bool) : List FsEntry → List FsEntry
  | [] => []
  | .file n :: es =>
    if ign n then copytree ign es else .file n :: copytree ign es
  | .dir n sub :: es =>
    if ign n then copytree ign es else .dir n (copytree ign sub) :: copytree ign es

/-- The copy of a single retained entry (files verbatim, directories with
their entries copied recursively under the same ignore predicate). -/
def copyEntry (ign : String → Bool) : FsEntry → FsEntry
  | .file n => .file n
  | .dir n sub => .dir n (copytree ign sub)

/-- The whole export: `copytree(project_dir, initial_copy, ignore=ignore_patterns)`
followed by `copytree(initial_copy, out_dir, ignore=ignore_patterns)`
(lines 46–58) — the filter applied twice to the project tree's entries. -/
def exportProject (project_dir : List FsEntry) : List FsEntry :=
  copytree shouldIgnore (copytree shouldIgnore project_dir)

/-- Concrete class at 45% coverage (missed 11, covered 9). -/
def demoClassEmit : ClassElem :=
  ⟨some "com/android/designcompose/x/File", some "File.kt", [⟨"LINE", some 11, some 9⟩]⟩

/-- Concrete class at exactly 50% coverage (missed 10, covered 10). -/
def demoClassHalf : ClassElem :=
  ⟨some "com/android/designcompose/x/Half", some "Half.kt", [⟨"LINE", some 10, some 10⟩]⟩

/-- Concrete class with an empty LINE counter (missed 0, covered 0). -/
def demoClassZero : ClassElem :=
  ⟨some "com/android/designcompose/x/Zero", some "Zero.kt", [⟨"LINE", some 0, some 0⟩]⟩

/-- Concrete class whose only counter is not of type LINE. -/
def demoClassNoLine : ClassElem :=
  ⟨some "com/android/designcompose/x/NoLine", some "NoLine.kt", [⟨"BRANCH", some 1, some 2⟩]⟩

/-- Concrete package matching the prefix, one class at 45%. -/
def demoPkg : PackageElem := ⟨some "com/android/designcompose/x", [demoClassEmit]⟩

/-- Concrete package not matching the prefix, one class at 0% coverage. -/
def demoPkgOther : PackageElem :=
  ⟨some "com/other/x", [⟨some "com/other/x/C", some "C.kt", [⟨"LINE", some 10, some 0⟩]⟩]⟩

/-- Concrete report with a single matching package. -/
def demoReport : Report := ⟨[demoPkg]⟩

/-- Concrete matching package containing only the 50% class. -/
def demoPkgHalf : PackageElem := ⟨some "com/android/designcompose/y", [demoClassHalf]⟩

/-- Concrete report with two matching packages in document order. -/
def demoReport2 : Report := ⟨[demoPkg, demoPkgHalf]⟩

/-- Well-formed report whose only package has no name attribute. -/
def namelessReport : Report := ⟨[⟨none, []⟩]⟩

/-- Well-formed report with a named package followed by a nameless one. -/
def mixedReport : Report := ⟨[⟨some "com/other/x", []⟩, ⟨none, []⟩]⟩

/-- The source directory of the exporter scenario: `.git/`, `build/`,
`local.properties`, `bin/` and `src/Main.kt`. -/
def demoProjectDir : List FsEntry :=
  [.dir ".git" [], .dir "build" [.file "old.txt"], .file "local.properties",
    .dir "bin" [], .dir "src" [.file "Main.kt"]]

/-- Total projection of a loop-body result to its printed lines. -/
def linesOf : Except RunError (List String) → List String
  | .ok ls => ls
  | .error _ => []

/-- Lines one package contributes (empty when the loop body raised). -/
def packageLines (package : PackageElem) : List String :=
  linesOf (reportPackage package)

/-- Lines one class contributes (empty when the loop body raised). -/
def classLines (package_name : String) (class_elem : ClassElem) : List String :=
  linesOf (reportClass package_name class_elem)

lemma runAll_cons {α : Type} (f : α → Except RunError (List String)) (x : α) (xs : List α) :
    runAll f (x :: xs) =
      match f x with
      | .error e => .error e
      | .ok l =>
        match runAll f xs with
        | .error e => .error e
        | .ok ls => .ok (l ++ ls) := rfl

lemma runAll_ok_join {α : Type} (f : α → Except RunError (List String)) :
    ∀ (xs : List α) (L : List String), runAll f xs = .ok L →
      L = (xs.map fun x => linesOf (f x)).flatten := by
  intro xs
  induction xs with
  | nil => intro L h; simpa [runAll] using h.symm
  | cons x xs ih =>
    intro L h
    unfold runAll at h
    cases hfx : f x with
    | error e => rw [hfx] at h; exact absurd h (by simp)
    | ok l =>
      rw [hfx] at h
      cases hr : runAll f xs with
      | error e => rw [hr] at h; exact absurd h (by simp)
      | ok ls =>
        rw [hr] at h
        have hL : l ++ ls = L := by simpa using h
        simp [← hL, hfx, linesOf, ih ls hr]

lemma runAll_ok_of_forall_ok {α : Type} (f : α → Except RunError (List String)) :
    ∀ xs : List α, (∀ x ∈ xs, ∃ l, f x = .ok l) → ∃ L, runAll f xs = .ok L := by
  intro xs
  induction xs with
  | nil => intro _; exact ⟨[], rfl⟩
  | cons x xs ih =>
    intro h
    obtain ⟨l, hl⟩ := h x (by simp)
    obtain ⟨L, hL⟩ := ih (fun y hy => h y (by simp [hy]))
    exact ⟨l ++ L, by simp [runAll, hl, hL]⟩

lemma runAll_ok_forall {α : Type} (f : α → Except RunError (List String)) :
    ∀ (xs : List α) (L : List String), runAll f xs = .ok L →
      ∀ x ∈ xs, ∃ l, f x = .ok l := by
  intro xs
  induction xs with
  | nil => simp
  | cons x xs ih =>
    intro L h y hy
    unfold runAll at h
    cases hfx : f x with
    | error e => rw [hfx] at h; exact absurd h (by simp)
    | ok l =>
      rw [hfx] at h
      cases hr : runAll f xs with
      | error e => rw [hr] at h; exact absurd h (by simp)
      | ok ls =>
        rcases List.mem_cons.mp hy with rfl | hy'
        · exact ⟨l, hfx⟩
        · exact ih ls hr y hy'

lemma runAll_mem_ok {α : Type} (f : α → Except RunError (List String)) :
    ∀ (xs : List α) (L : List String), runAll f xs = .ok L →
      ∀ l ∈ L, ∃ x ∈ xs, ∃ ls, f x = .ok ls ∧ l ∈ ls := by
  intro xs
  induction xs with
  | nil =>
    intro L h
    have : L = [] := by simpa [runAll] using h.symm
    simp [this]
  | cons x xs ih =>
    intro L h l hl
    unfold runAll at h
    cases hfx : f x with
    | error e => rw [hfx] at h; exact absurd h (by simp)
    | ok l0 =>
      rw [hfx] at h
      cases hr : runAll f xs with
      | error e => rw [hr] at h; exact absurd h (by simp)
      | ok ls =>
        rw [hr] at h
        have hL : l0 ++ ls = L := by simpa using h
        rcases List.mem_append.mp (hL ▸ hl) with hmem | hmem
        · exact ⟨x, by simp, l0, hfx, hmem⟩
        · obtain ⟨y, hy, ls', hls'⟩ := ih ls hr l hmem
          exact ⟨y, by simp [hy], ls', hls'⟩

lemma runAll_skip {α : Type} (f : α → Except RunError (List String)) (c : α)
    (hc : f c = .ok []) :
    ∀ (pre post : List α), runAll f (pre ++ c :: post) = runAll f (pre ++ post) := by
  intro pre
  induction pre with
  | nil =>
    intro post
    simp only [List.nil_append]
    rw [runAll_cons, hc]
    cases hr : runAll f post <;> simp [hr]
  | cons x xs ih =>
    intro post
    simp only [List.cons_append]
    rw [runAll_cons, runAll_cons, ih post]

lemma twoDigitFrac_spec :
    ∀ k : ℕ, k < 100 →
      (twoDigitFrac k).length = 2 ∧ (twoDigitFrac k).toList.all Char.isDigit = true := by
  decide

lemma format2_shape (q : ℚ) :
    ∃ w f, format2 q = w ++ "." ++ f ∧ f.length = 2 ∧ f.toList.all Char.isDigit = true := by
  refine ⟨(if roundHalfEven (q * 100) < 0 then "-" else "") ++
      Nat.repr ((roundHalfEven (q * 100)).natAbs / 100),
    twoDigitFrac ((roundHalfEven (q * 100)).natAbs % 100), rfl, ?_⟩
  exact twoDigitFrac_spec _ (Nat.mod_lt _ (by norm_num))

lemma emitLine_eq (package_name source_filename : String) (coverage : ℚ) :
    emitLine package_name source_filename coverage =
      package_name ++ "/" ++ source_filename ++ ": " ++ format2 coverage ++ "%" := rfl

lemma reportClass_ok_shape (package_name : String) (class_elem : ClassElem) (ls : List String)
    (h : reportClass package_name class_elem = .ok ls) :
    ∀ l ∈ ls, ∃ sf q, l = package_name ++ "/" ++ sf ++ ": " ++ format2 q ++ "%" := by
  cases hf : findLineCounter class_elem with
  | none =>
    simp only [reportClass, hf] at h
    obtain rfl : ls = [] := by simpa using h.symm
    simp
  | some k =>
    cases hm : k.missed with
    | none => simp [reportClass, hf, hm] at h
    | some m =>
      cases hv : k.covered with
      | none => simp [reportClass, hf, hm, hv] at h
      | some v =>
        simp only [reportClass, hf, hm, hv] at h
        split_ifs at h with h1 h2
        · obtain rfl : ls = [emitLine package_name (pyStrOpt class_elem.sourcefilename)
              (coverage_of v (m + v))] := by simpa using h.symm
          intro l hl
          rw [List.mem_singleton] at hl
          subst hl
          exact ⟨pyStrOpt class_elem.sourcefilename, coverage_of v (m + v), rfl⟩
        · obtain rfl : ls = [] := by simpa using h.symm
          simp
        · obtain rfl : ls = [] := by simpa using h.symm
          simp

lemma fnmatchList_star_all (l : List Char) : fnmatchList ['*'] l = true := by
  have h : fnmatchList ['*'] l = l.tails.any fun t => t.isEmpty := by
    simp [fnmatchList]
  rw [h, List.any_eq_true]
  exact ⟨[], (List.mem_tails [] l).mpr List.nil_suffix, rfl⟩

lemma fnmatch_dotstar (name : String) : fnmatch ".*" name = startswith name "." := by
  show fnmatchList ['.', '*'] name.toList = List.isPrefixOf ['.'] name.toList
  cases h : name.toList with
  | nil => rfl
  | cons c cs =>
    simp [fnmatchList, List.isPrefixOf, fnmatchList_star_all]

lemma fnmatchList_literal :
    ∀ pat : List Char, (∀ p ∈ pat, p ≠ '*' ∧ p ≠ '?') →
      ∀ l : List Char, fnmatchList pat l = (pat == l) := by
  intro pat
  induction pat with
  | nil =>
    intro _ l
    cases l <;> simp [fnmatchList]
  | cons p ps ih =>
    intro h l
    obtain ⟨hstar, hq⟩ := h p (by simp)
    have hps := ih fun x hx => h x (by simp [hx])
    cases l with
    | nil => simp [fnmatchList, hstar]
    | cons c cs =>
      simp only [fnmatchList, if_neg hstar, hps cs, List.cons_beq_cons]
      rw [beq_eq_false_iff_ne.mpr hq]
      simp

lemma fnmatch_literal (pat name : String) (h : ∀ p ∈ pat.toList, p ≠ '*' ∧ p ≠ '?') :
    fnmatch pat name = (name == pat) := by
  rw [fnmatch, fnmatchList_literal _ h]
  by_cases hnp : name = pat
  · subst hnp
    simp
  · have h1 : (pat.toList == name.toList) = false :=
      beq_eq_false_iff_ne.mpr fun hh => hnp (String.ext hh.symm)
    have h2 : (name == pat) = false := beq_eq_false_iff_ne.mpr hnp
    rw [h1, h2]

lemma copytree_cons (ign : String → Bool) (e : FsEntry) (es : List FsEntry) :
    copytree ign (e :: es) =
      if ign (FsEntry.name e) then copytree ign es
      else copyEntry ign e :: copytree ign es := by
  cases e <;> simp [copytree, copyEntry, FsEntry.name]

lemma copytree_mem (ign : String → Bool) :
    ∀ (es : List FsEntry) (e : FsEntry), e ∈ es → ign (FsEntry.name e) = false →
      copyEntry ign e ∈ copytree ign es := by
  intro es
  induction es with
  | nil => simp
  | cons a as ih =>
    intro e he hig
    rw [copytree_cons]
    rcases List.mem_cons.mp he with rfl | he'
    · rw [hig]
      simp
    · split <;> simp [ih e he' hig]

/-- C1: for a class of a retained package whose LINE counter has
`missed = m`, `covered = v` and `m + v > 0`, exactly one line is emitted for
the class iff `v / (m + v) * 100 < 50`; when the percentage is not strictly
below 50 (in particular at exactly 50%) nothing is emitted. -/
theorem coverage_threshold_emission (package_name : String) (c : ClassElem) (k : Counter)
    (hk : findLineCounter c = some k) (m v : ℤ) (hm : k.missed = some m) (hv : k.covered = some v)
    (ht : 0 < m + v) :
    ((∃ l, reportClass package_name c = .ok [l]) ↔ coverage_of v (m + v) < 50) ∧
    (¬ coverage_of v (m + v) < 50 → reportClass package_name c = .ok []) := by
  by_cases hc : coverage_of v (m + v) < 50
  · simp [reportClass, hk, hm, hv, ht, hc]
  · simp [reportClass, hk, hm, hv, ht, hc]

theorem coverage_threshold_emission_witness :
    (0:ℤ) < 10 + 10 ∧ reportClass "com/android/designcompose/x" demoClassHalf = .ok [] :=
  ⟨by norm_num,
    (coverage_threshold_emission "com/android/designcompose/x" demoClassHalf
      ⟨"LINE", some 10, some 10⟩ rfl 10 10 rfl rfl (by norm_num)).2
      (by norm_num [coverage_of])⟩

/-- C2: a package whose name does not start with the prefix
`com/android/designcompose` produces no output at all, whatever its classes
hold. -/
theorem nonmatching_package_silent (package : PackageElem) (package_name : String)
    (hn : package.name = some package_name) (h : startswith package_name pfx = false) :
    reportPackage package = .ok [] := by
  simp [reportPackage, hn, h]

theorem nonmatching_package_silent_witness :
    startswith "com/other/x" pfx = false ∧ reportPackage demoPkgOther = .ok [] :=
  ⟨by decide, nonmatching_package_silent demoPkgOther "com/other/x" rfl (by decide)⟩

/-- C3: a class whose LINE counter has `missed + covered = 0` is skipped:
the guard `total_lines > 0` fails, so no line is emitted, the division of
line 22 is never reached, and no error is raised. -/
theorem zero_total_skipped (package_name : String) (c : ClassElem) (k : Counter)
    (hk : findLineCounter c = some k) (m v : ℤ) (hm : k.missed = some m) (hv : k.covered = some v)
    (ht : m + v = 0) :
    reportClass package_name c = .ok [] := by
  simp [reportClass, hk, hm, hv, ht]

theorem zero_total_skipped_witness :
    (0:ℤ) + 0 = 0 ∧ reportClass "com/android/designcompose/x" demoClassZero = .ok [] :=
  ⟨rfl, zero_total_skipped "com/android/designcompose/x" demoClassZero
    ⟨"LINE", some 0, some 0⟩ rfl 0 0 rfl rfl (by norm_num)⟩

lemma reportClass_no_line_counter (c : ClassElem) (h : ∀ k ∈ c.counters, k.ctype ≠ "LINE") :
    ∀ package_name, reportClass package_name c = .ok [] := by
  intro package_name
  have hf : findLineCounter c = none := by
    rw [findLineCounter, List.find?_eq_none]
    intro x hx
    simpa using h x hx
  simp [reportClass, hf]

/-- C4: a class with no counter of type LINE is skipped — it emits nothing —
and the scan continues with the remaining classes: removing such a class
from a package leaves the package's result unchanged. -/
theorem missing_line_counter_skipped (package_name : String) (c : ClassElem)
    (h : ∀ k ∈ c.counters, k.ctype ≠ "LINE") :
    reportClass package_name c = .ok [] ∧
    ∀ (nm : Option String) (pre post : List ClassElem),
      reportPackage ⟨nm, pre ++ c :: post⟩ = reportPackage ⟨nm, pre ++ post⟩ := by
  refine ⟨reportClass_no_line_counter c h package_name, ?_⟩
  intro nm pre post
  cases nm with
  | none => rfl
  | some n =>
    by_cases hs : startswith n pfx = true
    · simp [reportPackage, hs, runAll_skip _ c (reportClass_no_line_counter c h n) pre post]
    · simp [reportPackage, hs]

theorem missing_line_counter_skipped_witness :
    reportClass "com/android/designcompose/x" demoClassNoLine = .ok [] ∧
    reportPackage ⟨some "com/android/designcompose/x", [demoClassEmit, demoClassNoLine]⟩ =
      reportPackage ⟨some "com/android/designcompose/x", [demoClassEmit]⟩ := by
  have h := missing_line_counter_skipped "com/android/designcompose/x" demoClassNoLine (by decide)
  exact ⟨h.1, h.2 (some "com/android/designcompose/x") [demoClassEmit] []⟩

/-- C5: every line the run emits is
`<package_name>/<sourcefilename>: <percentage>%` with the percentage carrying
exactly two digits after the decimal point. -/
theorem emitted_line_format (xml_file : Option (Option Report)) (L : List String)
    (h : parse_jacoco_report xml_file = .ok L) (l : String) (hl : l ∈ L) :
    ∃ package_name sf w f,
      l = package_name ++ "/" ++ sf ++ ": " ++ w ++ "." ++ f ++ "%" ∧
      f.length = 2 ∧ f.toList.all Char.isDigit = true := by
  cases xml_file with
  | none => simp [parse_jacoco_report, et_parse] at h
  | some o =>
    cases o with
    | none => simp [parse_jacoco_report, et_parse] at h
    | some root =>
      have h' : runAll reportPackage root.packages = .ok L := by
        simpa [parse_jacoco_report, et_parse] using h
      obtain ⟨p, hp, ls, hls, hlls⟩ := runAll_mem_ok _ _ _ h' l hl
      cases hn : p.name with
      | none => rw [reportPackage] at hls; rw [hn] at hls; exact absurd hls (by simp)
      | some n =>
        simp only [reportPackage, hn] at hls
        by_cases hs : startswith n pfx = true
        · rw [if_neg (by simp [hs])] at hls
          obtain ⟨c, hc, ls', hls', hlls'⟩ := runAll_mem_ok _ _ _ hls l hlls
          obtain ⟨sf, q, hq⟩ := reportClass_ok_shape n c ls' hls' l hlls'
          obtain ⟨w, f, hwf, hf2, hfd⟩ := format2_shape q
          refine ⟨n, sf, w, f, ?_, hf2, hfd⟩
          rw [hq, hwf]
          simp [String.append_assoc]
        · rw [if_pos (by simp [hs])] at hls
          have hemp : ls = [] := by simpa using hls.symm
          subst hemp
          simp at hlls

theorem emitted_line_format_witness :
    ∃ package_name sf w f,
      "com/android/designcompose/x/File.kt: 45.00%" =
        package_name ++ "/" ++ sf ++ ": " ++ w ++ "." ++ f ++ "%" ∧
      f.length = 2 ∧ f.toList.all Char.isDigit = true :=
  emitted_line_format (some (some demoReport))
    ["com/android/designcompose/x/File.kt: 45.00%"]
    (by
      norm_num [parse_jacoco_report, et_parse, demoReport, demoPkg, demoClassEmit, runAll,
        reportPackage, reportClass, startswith, pfx, findLineCounter, coverage_of, emitLine,
        pyStrOpt, format2, roundHalfEven, twoDigitFrac]
      decide)
    "com/android/designcompose/x/File.kt: 45.00%" (by simp)

/-- C6: the emitted lines follow document order — the run's output is the
concatenation, package by package in document order, of each retained
package's lines, and a retained package's lines are the concatenation of its
classes' lines in document order; nothing is re-sorted. -/
theorem emission_document_order (r : Report) (L : List String)
    (h : parse_jacoco_report (some (some r)) = .ok L) :
    L = (r.packages.map packageLines).flatten ∧
    ∀ p ∈ r.packages, ∀ n, p.name = some n → startswith n pfx = true →
      packageLines p = (p.classes.map (classLines n)).flatten := by
  have h' : runAll reportPackage r.packages = .ok L := by
    simpa [parse_jacoco_report, et_parse] using h
  constructor
  · simpa [packageLines] using runAll_ok_join _ _ _ h'
  · intro p hp n hn hs
    obtain ⟨ls, hls⟩ := runAll_ok_forall _ _ _ h' p hp
    have hpl : packageLines p = ls := by simp [packageLines, hls, linesOf]
    simp only [reportPackage, hn] at hls
    rw [if_neg (by simp [hs])] at hls
    rw [hpl, runAll_ok_join _ _ _ hls]
    rfl

theorem emission_document_order_witness :
    ["com/android/designcompose/x/File.kt: 45.00%"] =
      (demoReport2.packages.map packageLines).flatten ∧
    packageLines demoPkg =
      (demoPkg.classes.map (classLines "com/android/designcompose/x")).flatten := by
  have h := emission_document_order demoReport2
    ["com/android/designcompose/x/File.kt: 45.00%"]
    (by
      norm_num [parse_jacoco_report, et_parse, demoReport2, demoPkg, demoPkgHalf, demoClassEmit,
        demoClassHalf, runAll, reportPackage, reportClass, startswith, pfx, findLineCounter,
        coverage_of, emitLine, pyStrOpt, format2, roundHalfEven, twoDigitFrac]
      decide)
  exact ⟨h.1, h.2 demoPkg (by simp [demoReport2]) "com/android/designcompose/x" rfl (by decide)⟩

/-- C7 (counterexample): a present, well-formed document can still make the
run fail — a package without a name attribute raises `AttributeError` — so
ParseError and FileNotFoundError are not the only failure conditions. -/
theorem wellformed_present_can_still_fail :
    parse_jacoco_report (some (some namelessReport)) = .error .attributeError ∧
    ¬ ∃ L, parse_jacoco_report (some (some namelessReport)) = .ok L := by
  constructor
  · rfl
  · rintro ⟨L, hL⟩
    rw [show parse_jacoco_report (some (some namelessReport)) = .error .attributeError
      from rfl] at hL
    exact absurd hL (by simp)

/-- C7 (amended): a missing input file fails with `FileNotFoundError` and a
malformed document with `ParseError`; a present, well-formed document on
which every package carries a name attribute and every class's LINE counter
carries parseable `missed` and `covered` attributes completes without
raising any error. -/
theorem error_conditions_amended (r : Report)
    (h1 : ∀ p ∈ r.packages, p.name ≠ none)
    (h2 : ∀ p ∈ r.packages, ∀ c ∈ p.classes, ∀ k ∈ c.counters,
      findLineCounter c = some k → k.missed ≠ none ∧ k.covered ≠ none) :
    parse_jacoco_report none = .error .fileNotFoundError ∧
    parse_jacoco_report (some none) = .error .parseError ∧
    ∃ L, parse_jacoco_report (some (some r)) = .ok L := by
  refine ⟨rfl, rfl, ?_⟩
  have hpk : ∀ p ∈ r.packages, ∃ l, reportPackage p = .ok l := by
    intro p hp
    cases hn : p.name with
    | none => exact absurd hn (h1 p hp)
    | some n =>
      by_cases hs : startswith n pfx = true
      · have hcl : ∀ c ∈ p.classes, ∃ l, reportClass n c = .ok l := by
          intro c hc
          cases hf : findLineCounter c with
          | none => exact ⟨[], by simp [reportClass, hf]⟩
          | some k =>
            have hkmem : k ∈ c.counters := List.mem_of_find?_eq_some hf
            obtain ⟨hm, hv⟩ := h2 p hp c hc k hkmem hf
            obtain ⟨m, hm'⟩ := Option.ne_none_iff_exists'.mp hm
            obtain ⟨v, hv'⟩ := Option.ne_none_iff_exists'.mp hv
            by_cases h0 : (0:ℤ) < m + v
            · by_cases hcv : coverage_of v (m + v) < 50
              · exact ⟨[emitLine n (pyStrOpt c.sourcefilename) (coverage_of v (m + v))],
                  by simp [reportClass, hf, hm', hv', h0, hcv]⟩
              · exact ⟨[], by simp [reportClass, hf, hm', hv', h0, hcv]⟩
            · exact ⟨[], by simp [reportClass, hf, hm', hv', h0]⟩
        obtain ⟨M, hM⟩ := runAll_ok_of_forall_ok _ _ hcl
        exact ⟨M, by simp [reportPackage, hn, hs, hM]⟩
      · exact ⟨[], by simp [reportPackage, hn, hs]⟩
  obtain ⟨L, hL⟩ := runAll_ok_of_forall_ok _ _ hpk
  exact ⟨L, by simp [parse_jacoco_report, et_parse, hL]⟩

theorem error_conditions_amended_witness :
    parse_jacoco_report none = .error .fileNotFoundError ∧
    parse_jacoco_report (some none) = .error .parseError ∧
    ∃ L, parse_jacoco_report (some (some demoReport)) = .ok L :=
  error_conditions_amended demoReport (by decide) (by decide)

/-- C8: a LINE counter with non-negative `missed = m` and `covered = v` and
`m + v > 0` yields a coverage percentage `v / (m + v) * 100` within `[0, 100]`. -/
theorem coverage_percentage_bounds (m v : ℤ) (hm : 0 ≤ m) (hv : 0 ≤ v)
    (ht : 0 < m + v) :
    0 ≤ coverage_of v (m + v) ∧ coverage_of v (m + v) ≤ 100 := by
  have hv' : (0:ℚ) ≤ (v : ℚ) := by exact_mod_cast hv
  have hm' : (0:ℚ) ≤ (m : ℚ) := by exact_mod_cast hm
  have ht' : (0:ℚ) < (m : ℚ) + (v : ℚ) := by exact_mod_cast ht
  rw [coverage_of]
  push_cast
  constructor
  · exact mul_nonneg (div_nonneg hv' ht'.le) (by norm_num)
  · have h1 : (v : ℚ) / ((m : ℚ) + (v : ℚ)) ≤ 1 := (div_le_one ht').mpr (by linarith)
    calc (v : ℚ) / ((m : ℚ) + (v : ℚ)) * 100 ≤ 1 * 100 :=
          mul_le_mul_of_nonneg_right h1 (by norm_num)
      _ = 100 := by norm_num

theorem coverage_percentage_bounds_witness :
    (0:ℤ) ≤ 1 ∧ (0:ℤ) ≤ 3 ∧ (0:ℤ) < 1 + 3 ∧
    0 ≤ coverage_of 3 (1 + 3) ∧ coverage_of 3 (1 + 3) ≤ 100 :=
  ⟨by norm_num, by norm_num, by norm_num,
    coverage_percentage_bounds 1 3 (by norm_num) (by norm_num) (by norm_num)⟩

/-- C9 (counterexample): `Main.kt` matches no exclusion pattern, yet a source
tree holding it inside `build/` exports to an empty tree — an entry below an
excluded directory is not copied even though the predicate would keep it. -/
theorem nested_entry_not_copied :
    shouldIgnore "Main.kt" = false ∧
    exportProject [FsEntry.dir "build" [FsEntry.file "Main.kt"]] = [] := by
  constructor
  · decide
  · simp +decide [exportProject, copytree]

/-- C9 (amended): the exclusion predicate matches exactly the names that
begin with a dot or equal `build`, `local.properties` or `bin`; every entry
of a copied directory whose name the predicate does not match is itself
copied (so non-excluded entries are lost only when an ancestor directory is
excluded); and the scenario tree containing `.git/`, `build/`,
`local.properties`, `bin/` and `src/Main.kt` exports to a tree containing
only `src/Main.kt`. -/
theorem export_exclusion_amended (es : List FsEntry) (e : FsEntry) (he : e ∈ es)
    (hig : shouldIgnore (FsEntry.name e) = false) :
    (∀ name : String, shouldIgnore name =
      (startswith name "." || name == "build" || name == "local.properties" || name == "bin")) ∧
    copyEntry shouldIgnore e ∈ copytree shouldIgnore es ∧
    exportProject demoProjectDir = [FsEntry.dir "src" [FsEntry.file "Main.kt"]] := by
  refine ⟨?_, copytree_mem shouldIgnore es e he hig, ?_⟩
  · intro name
    have hd : fnmatch ".*" name = startswith name "." := fnmatch_dotstar name
    have hb : fnmatch "build" name = (name == "build") :=
      fnmatch_literal "build" name (by decide)
    have hlp : fnmatch "local.properties" name = (name == "local.properties") :=
      fnmatch_literal "local.properties" name (by decide)
    have hbin : fnmatch "bin" name = (name == "bin") :=
      fnmatch_literal "bin" name (by decide)
    simp [shouldIgnore, ignoreGlobs, hd, hb, hlp, hbin, Bool.or_assoc]
  · simp +decide [exportProject, demoProjectDir, copytree]

theorem export_exclusion_amended_witness :
    shouldIgnore "build" =
      (startswith "build" "." || "build" == "build" ||
        "build" == "local.properties" || "build" == "bin") ∧
    copyEntry shouldIgnore (FsEntry.file "Main.kt") ∈
      copytree shouldIgnore [FsEntry.file "Main.kt"] ∧
    exportProject demoProjectDir = [FsEntry.dir "src" [FsEntry.file "Main.kt"]] := by
  have h := export_exclusion_amended [FsEntry.file "Main.kt"] (FsEntry.file "Main.kt")
    (by simp) (by decide)
  exact ⟨h.1 "build", h.2.1, h.2.2⟩

/-- C10: a package element without a name attribute makes the run abort: the
prefix test raises `AttributeError` for that package, and the whole run of
`parse_jacoco_report` on such a well-formed document ends in an error rather
than skipping the package. -/
theorem missing_package_name_aborts (r : Report) (p : PackageElem)
    (hp : p ∈ r.packages) (hn : p.name = none) :
    reportPackage p = .error .attributeError ∧
    ∃ e, parse_jacoco_report (some (some r)) = .error e := by
  have h1 : reportPackage p = .error .attributeError := by
    rw [reportPackage, hn]
  refine ⟨h1, ?_⟩
  cases hres : runAll reportPackage r.packages with
  | error e => exact ⟨e, by simp [parse_jacoco_report, et_parse, hres]⟩
  | ok L =>
    obtain ⟨l, hl⟩ := runAll_ok_forall _ _ _ hres p hp
    rw [h1] at hl
    exact absurd hl (by simp)

theorem missing_package_name_aborts_witness :
    reportPackage ⟨none, []⟩ = .error .attributeError ∧
    ∃ e, parse_jacoco_report (some (some mixedReport)) = .error e :=
  missing_package_name_aborts mixedReport ⟨none, []⟩ (by simp [mixedReport]) rfl
